import Mathlib

/-!
Verification of the CodeTracker statistics and streak computations.

Calendar days are modelled as integers (days since an arbitrary epoch);
normalising a timestamp to local midnight (`setHours(0,0,0,0)`) becomes
taking its day number, and one calendar-day steps become `± 1`.
A stored timestamp value is either a valid timestamp carrying its day
number or a malformed value (`new Date` on it yields an invalid date,
which contributes no usable day); a missing (null) field is `Option.none`
around that.
-/

namespace CodeTracker

/-- Question status, the closed enumeration `'To Do' | 'In Progress' |
'Completed'` enforced by the schema check constraint. -/
inductive Status where
  | toDo
  | inProgress
  | completed
deriving DecidableEq, Repr

/-- A stored timestamp value: either valid with its calendar-day number,
or malformed (parsing yields an invalid date with no usable day). -/
inductive RawTs where
  | valid (day : Int)
  | malformed
deriving DecidableEq, Repr

/-- Day number obtained from a timestamp value, `none` when malformed.
Models `new Date(s)` followed by `setHours(0,0,0,0)`: an invalid date
fails every subsequent comparison, so it yields no day. -/
def RawTs.parse : RawTs → Option Int
  | .valid d => some d
  | .malformed => none

/-- The fields of a question row that the statistics code reads
(`select("status, last_solved_at, updated_at")`). -/
structure Question where
  status : Status
  last_solved_at : Option RawTs
  updated_at : Option RawTs
deriving DecidableEq, Repr

/-! ### Completion counts (Profile.tsx / part_001, identical code) -/

/-- `questions?.length || 0`. -/
def totalCount (qs : List Question) : Nat := qs.length

/-- `questions?.filter((q) => q.status === "Completed").length || 0`. -/
def completedCount (qs : List Question) : Nat :=
  (qs.filter (fun q => q.status = Status.completed)).length

/-- `total > 0 ? Math.round((completed / total) * 100) : 0`, with the
arithmetic taken exactly over the rationals (`Math.round` rounds half
toward positive infinity, as Mathlib `round` does). -/
def completionRate (qs : List Question) : Int :=
  if 0 < totalCount qs then
    round (((completedCount qs : ℚ) / (totalCount qs : ℚ)) * 100)
  else 0

/-! ### Activity window (part_001 fetchStats) -/

/-- The `while (startOfRange.getDay() !== 0) startOfRange--` loop:
step back one day at a time until a Sunday.  With day 0 a Thursday
(1970-01-01), `getDay d = (d + 4) % 7`.  At most 6 steps are ever
taken; fuel 7 is sufficient. -/
def alignSundayAux : Int → Nat → Int
  | d, 0 => d
  | d, fuel + 1 => if (d + 4) % 7 = 0 then d else alignSundayAux (d - 1) fuel

/-- `startOfRange = today - 364` stepped back to the previous Sunday. -/
def startOfRange (today : Int) : Int := alignSundayAux (today - 364) 7

/-- The activity date a record contributes:
`q.last_solved_at ? new Date(q.last_solved_at)
 : q.status === "Completed" && q.updated_at ? new Date(q.updated_at) : null`. -/
def activityDay (q : Question) : Option Int :=
  match q.last_solved_at with
  | some r => r.parse
  | none =>
    match q.status, q.updated_at with
    | .completed, some r => r.parse
    | _, _ => none

/-- `dateSource >= startOfRange && dateSource <= today`. -/
def inWindow (today d : Int) : Bool :=
  decide (startOfRange today ≤ d) && decide (d ≤ today)

/-- The multiset of in-window activity days contributed by the records:
each record whose `dateSource` exists and passes the window check adds
one occurrence of its day to the `activity` object. -/
def activityDays (today : Int) (qs : List Question) : List Int :=
  (qs.filterMap activityDay).filter (inWindow today)

/-- Per-day count of the `activity` object (`activity[key] || 0`):
zero for any day that never received a key. -/
def activityCount (today : Int) (qs : List Question) (d : Int) : Nat :=
  (activityDays today qs).count d

/-! ### Sorting the active days descending -/

/-- Insert a day into a descending-sorted list. -/
def insertDesc (x : Int) : List Int → List Int
  | [] => [x]
  | y :: ys => if y < x then x :: y :: ys else y :: insertDesc x ys

/-- Sort a list of days in descending order
(`.sort((a, b) => b.getTime() - a.getTime())`). -/
def sortDesc (l : List Int) : List Int := l.foldr insertDesc []

/-- `Object.keys(activity)` sorted descending and de-duplicated: the
distinct in-window active days in descending order (`uniqueDates`). -/
def activeDays (today : Int) (qs : List Question) : List Int :=
  sortDesc (activityDays today qs).dedup

/-! ### Current streak (index scan, Profile variants) -/

/-- The current-streak loop: at index `i`, the scan continues exactly
when `uniqueDates[i]` equals `today - i`, and breaks at the first
mismatch. -/
def streakScan (today : Int) : List Int → Nat → Nat
  | [], _ => 0
  | d :: ds, i => if d = today - (i : Int) then streakScan today ds (i + 1) + 1 else 0

/-- part_001 `currentStreak`: index scan over the windowed unique
active days (0 when there are none). -/
def currentStreak (today : Int) (qs : List Question) : Nat :=
  streakScan today (activeDays today qs) 0

/-! ### Longest streak scans -/

/-- part_001 longest-streak loop: `tempStreak`/`longestStreak` scan with
`diffDays === 1` as the run-extension test, finishing with
`Math.max(longestStreak, tempStreak)`. -/
def longestAux (prev : Int) : List Int → Nat → Nat → Nat
  | [], temp, longest => max longest temp
  | d :: ds, temp, longest =>
    if prev - d = 1 then longestAux d ds (temp + 1) (max longest (temp + 1))
    else longestAux d ds 1 longest

/-- Longest streak of a descending list of unique days: 0 when empty,
otherwise the scan started with `tempStreak = 1`, `longestStreak = 0`. -/
def longestRun : List Int → Nat
  | [] => 0
  | d :: ds => longestAux d ds 1 0

/-- part_001 `longestStreak`. -/
def longestStreak (today : Int) (qs : List Question) : Nat :=
  longestRun (activeDays today qs)

/-! ### Profile.tsx variant (no window, `last_solved_at` only) -/

/-- Profile.tsx `solvedDates`: days of records whose `last_solved_at`
is present, with no window restriction and no `updated_at` fallback. -/
def solvedDays (qs : List Question) : List Int :=
  qs.filterMap (fun q => q.last_solved_at.bind RawTs.parse)

/-- Profile.tsx `uniqueDates`: distinct solved days sorted descending. -/
def profileUniqueDates (qs : List Question) : List Int :=
  sortDesc (solvedDays qs).dedup

/-- Profile.tsx `currentStreak`: the same index scan, over the
unwindowed unique solved days. -/
def profileCurrentStreak (today : Int) (qs : List Question) : Nat :=
  streakScan today (profileUniqueDates qs) 0

/-- Profile.tsx longest-streak loop, whose run-extension test is
`Math.abs(diff) <= 1` rather than `=== 1`. -/
def longestAuxAbs (prev : Int) : List Int → Nat → Nat → Nat
  | [], temp, longest => max longest temp
  | d :: ds, temp, longest =>
    if (prev - d).natAbs ≤ 1 then longestAuxAbs d ds (temp + 1) (max longest (temp + 1))
    else longestAuxAbs d ds 1 longest

/-- Profile.tsx longest streak of a descending list. -/
def profileLongestRun : List Int → Nat
  | [] => 0
  | d :: ds => longestAuxAbs d ds 1 0

/-- Profile.tsx `longestStreak` (it does not depend on today). -/
def profileLongestStreak (_today : Int) (qs : List Question) : Nat :=
  profileLongestRun (profileUniqueDates qs)

/-! ### Dashboard streak (part_003) -/

/-- The Dashboard `while (uniqueDates.has(currentDate))` walk, one
calendar day backward per iteration.  Each successful iteration
consumes a distinct member of `S`, so fuel `S.length` is exact. -/
def walkBackAux (S : List Int) : Int → Nat → Nat
  | _, 0 => 0
  | d, fuel + 1 => if d ∈ S then walkBackAux S (d - 1) fuel + 1 else 0

/-- Dashboard `streak`: the set of unique solved days (from
`last_solved_at` only, unwindowed); if today or yesterday is active,
walk backward from today while the day is active. -/
def dashboardStreak (today : Int) (qs : List Question) : Nat :=
  if today ∈ (solvedDays qs).dedup ∨ today - 1 ∈ (solvedDays qs).dedup then
    walkBackAux ((solvedDays qs).dedup) today ((solvedDays qs).dedup).length
  else 0

/-! ### Year grid (part_001) -/

/-- `for (let i = 0; i < 53 * 7; i++) days.push(startOfRange + i)`. -/
def yearDays (today : Int) : List Int :=
  (List.range (53 * 7)).map (fun i : Nat => startOfRange today + (i : Int))

/-- The rendered heatmap cells: for each grid day the count
`activityMap[key] || 0`. -/
def renderedCounts (today : Int) (qs : List Question) : List Nat :=
  (yearDays today).map (fun d => activityCount today qs d)

/-- Whether a record contributes an activity day lying inside the
window from the week-aligned start through today. -/
def inWindowRec (today : Int) (q : Question) : Bool :=
  match activityDay q with
  | some d => inWindow today d
  | none => false

/-! ### Concrete example inputs used in counterexamples and witnesses -/

/-- A record completed on day 11 (the day after the example today, 10). -/
def exFutureRec : Question := ⟨Status.completed, some (RawTs.valid 11), none⟩

/-- A record completed on day 10 (the example today). -/
def exTodayRec : Question := ⟨Status.completed, some (RawTs.valid 10), none⟩

/-- A record completed on day 9 (the day before the example today). -/
def exYesterdayRec : Question := ⟨Status.completed, some (RawTs.valid 9), none⟩

/-- A future-dated completion together with one today. -/
def exFuture : List Question := [exFutureRec, exTodayRec]

/-- Only yesterday is active. -/
def exYesterday : List Question := [exYesterdayRec]

/-- Three consecutive active days ending today (day 10). -/
def exThree : List Question :=
  [exTodayRec, exYesterdayRec, ⟨Status.toDo, some (RawTs.valid 8), none⟩]

/-- A record whose only date field is malformed. -/
def exBad : Question := ⟨Status.completed, some RawTs.malformed, none⟩

/-- A record whose activity day (100) lies after the example today (10). -/
def exOut : Question := ⟨Status.completed, some (RawTs.valid 100), none⟩

/-! ### Question form (part_004) and schema (part_000) -/

/-- The columns of a `coding_questions` row touched by the application. -/
structure QuestionRow where
  title : String
  description : String
  language : String
  topic : String
  difficulty : String
  status : Status
  solution_code : Option String
  notes : Option String
  user_id : String
  last_solved_at : Option RawTs
  created_at : Int
  updated_at : Int
deriving Repr

/-- The QuestionForm state (`formData`). -/
structure FormData where
  title : String
  description : String
  language : String
  topic : String
  difficulty : String
  status : Status
  solution_code : String
deriving Repr

/-- The update branch of `handleSubmit`: the payload
`{ ...formData, user_id, solution_code: formData.solution_code || null }`
overwrites exactly its own columns; the database trigger refreshes
`updated_at`.  Columns absent from the payload keep their stored value. -/
def applyUpdate (f : FormData) (uid : String) (now : Int) (row : QuestionRow) : QuestionRow :=
  { row with
    title := f.title
    description := f.description
    language := f.language
    topic := f.topic
    difficulty := f.difficulty
    status := f.status
    solution_code := if f.solution_code = "" then none else some f.solution_code
    user_id := uid
    updated_at := now }

/-- The insert branch of `handleSubmit`: columns absent from the payload
take their schema defaults (`last_solved_at` and `notes` default to
null, the timestamps to `now()`). -/
def insertRow (f : FormData) (uid : String) (now : Int) : QuestionRow :=
  { title := f.title
    description := f.description
    language := f.language
    topic := f.topic
    difficulty := f.difficulty
    status := f.status
    solution_code := if f.solution_code = "" then none else some f.solution_code
    notes := none
    user_id := uid
    last_solved_at := none
    created_at := now
    updated_at := now }

/-! ## Lemmas about the descending sort -/

theorem insertDesc_perm (x : Int) (l : List Int) : (insertDesc x l).Perm (x :: l) := by
  induction l with
  | nil => exact List.Perm.refl _
  | cons y ys ih =>
    unfold insertDesc
    split
    · exact List.Perm.refl _
    · exact ((ih.cons y).trans (List.Perm.swap x y ys))

theorem sortDesc_perm (l : List Int) : (sortDesc l).Perm l := by
  induction l with
  | nil => exact List.Perm.refl _
  | cons x xs ih =>
    exact (insertDesc_perm x (sortDesc xs)).trans (ih.cons x)

theorem mem_insertDesc {x y : Int} {l : List Int} :
    y ∈ insertDesc x l ↔ y = x ∨ y ∈ l := by
  rw [(insertDesc_perm x l).mem_iff, List.mem_cons]

theorem mem_sortDesc {x : Int} {l : List Int} : x ∈ sortDesc l ↔ x ∈ l :=
  (sortDesc_perm l).mem_iff

theorem sorted_ge_insertDesc {x : Int} {l : List Int}
    (h : List.Sorted (fun a b => b ≤ a) l) :
    List.Sorted (fun a b => b ≤ a) (insertDesc x l) := by
  induction l with
  | nil => simp [insertDesc]
  | cons y ys ih =>
    rcases List.sorted_cons.mp h with ⟨hy, hys⟩
    unfold insertDesc
    split
    · rename_i hlt
      refine List.sorted_cons.mpr ⟨?_, h⟩
      intro b hb
      rcases List.mem_cons.mp hb with hb | hb
      · omega
      · have := hy b hb; omega
    · rename_i hnlt
      refine List.sorted_cons.mpr ⟨?_, ih hys⟩
      intro b hb
      rcases mem_insertDesc.mp hb with hb | hb
      · omega
      · exact hy b hb

theorem sorted_ge_sortDesc (l : List Int) :
    List.Sorted (fun a b => b ≤ a) (sortDesc l) := by
  induction l with
  | nil => simp [sortDesc]
  | cons x xs ih => exact sorted_ge_insertDesc ih

theorem sorted_gt_sortDesc {l : List Int} (h : l.Nodup) :
    List.Sorted (· > ·) (sortDesc l) := by
  have hnd : (sortDesc l).Nodup := ((sortDesc_perm l).symm.nodup h)
  have hge := sorted_ge_sortDesc l
  have : List.Pairwise (fun a b : Int => b ≤ a ∧ a ≠ b) (sortDesc l) :=
    List.Pairwise.and hge hnd
  exact this.imp (fun hab => by omega)

/-! ## Facts about the active-day lists -/

theorem mem_activeDays {today d : Int} {qs : List Question} :
    d ∈ activeDays today qs ↔ d ∈ activityDays today qs := by
  unfold activeDays
  rw [mem_sortDesc, List.mem_dedup]

theorem sorted_activeDays (today : Int) (qs : List Question) :
    List.Sorted (· > ·) (activeDays today qs) :=
  sorted_gt_sortDesc (List.nodup_dedup _)

theorem activeDays_le_today {today d : Int} {qs : List Question}
    (h : d ∈ activeDays today qs) : d ≤ today := by
  have hmem := mem_activeDays.mp h
  unfold activityDays at hmem
  have := List.of_mem_filter hmem
  unfold inWindow at this
  have h2 := (Bool.and_eq_true _ _).mp this
  exact of_decide_eq_true h2.2

theorem activeDays_ge_start {today d : Int} {qs : List Question}
    (h : d ∈ activeDays today qs) : startOfRange today ≤ d := by
  have hmem := mem_activeDays.mp h
  unfold activityDays at hmem
  have := List.of_mem_filter hmem
  unfold inWindow at this
  have h2 := (Bool.and_eq_true _ _).mp this
  exact of_decide_eq_true h2.1

theorem sorted_profileUniqueDates (qs : List Question) :
    List.Sorted (· > ·) (profileUniqueDates qs) :=
  sorted_gt_sortDesc (List.nodup_dedup _)

/-! ## The current-streak index scan -/

/-- Every index the scan accepts is a day of the list: the matched
prefix consists of `today - i`, `today - i - 1`, and so on. -/
theorem streakScan_mem (today : Int) :
    ∀ (L : List Int) (i j : Nat), j < streakScan today L i →
      (today - (i : Int) - (j : Int)) ∈ L := by
  intro L
  induction L with
  | nil => intro i j h; simp [streakScan] at h
  | cons d ds ih =>
    intro i j h
    unfold streakScan at h
    split at h
    · rename_i heq
      match j with
      | 0 => simp [heq]
      | j' + 1 =>
        have hj' : j' < streakScan today ds (i + 1) := by omega
        have hmem := ih (i + 1) j' hj'
        refine List.mem_cons_of_mem _ ?_
        have hcast : today - (((i + 1 : Nat)) : Int) - (j' : Int)
            = today - (i : Int) - (((j' + 1 : Nat)) : Int) := by push_cast; ring
        rwa [hcast] at hmem
    · omega

/-- On a strictly descending list bounded by `today - i`, the scan
stops exactly at the first gap: the day after the matched prefix is
not in the list. -/
theorem streakScan_gap (today : Int) :
    ∀ (L : List Int) (i : Nat),
      List.Sorted (· > ·) L → (∀ d ∈ L, d ≤ today - (i : Int)) →
      (today - (i : Int) - (streakScan today L i : Int)) ∉ L := by
  intro L
  induction L with
  | nil => intro i _ _; simp [streakScan]
  | cons d ds ih =>
    intro i hs hb
    have hd := List.sorted_cons.mp hs
    unfold streakScan
    split
    · rename_i heq
      have hb' : ∀ x ∈ ds, x ≤ today - ((i + 1 : Nat) : Int) := by
        intro x hx
        have := hd.1 x hx
        push_cast
        omega
      have hih := ih (i + 1) hd.2 hb'
      intro hmem
      rcases List.mem_cons.mp hmem with h1 | h1
      · push_cast at h1
        omega
      · apply hih
        have heq2 : today - ((i + 1 : Nat) : Int) - (streakScan today ds (i + 1) : Int)
            = today - (i : Int) - ((streakScan today ds (i + 1) + 1 : Nat) : Int) := by
          push_cast; ring
        rw [heq2]
        exact h1
    · rename_i hne
      intro hmem
      have hdle := hb d (List.mem_cons_self _ _)
      rcases List.mem_cons.mp hmem with h1 | h1
      · simp only [Nat.cast_zero, sub_zero] at h1
        exact hne h1.symm
      · have := hd.1 _ h1
        have := hb _ hmem
        simp only [Nat.cast_zero, sub_zero] at this ⊢
        omega

/-! ## The longest-streak scan: soundness and completeness -/

/-- A run listed from its bottom upward, derived from a run listed from
its top downward. -/
theorem climb_of_run {S : List Int} {dtop b : Int} {k : Nat}
    (hrun : ∀ j : Nat, j < k → dtop - (j : Int) ∈ S)
    (hb : b = dtop - (k : Int) + 1) :
    ∀ j : Nat, j < k → b + (j : Int) ∈ S := by
  intro j hj
  have h1 := hrun (k - 1 - j) (by omega)
  have heq : dtop - ((k - 1 - j : Nat) : Int) = b + (j : Int) := by omega
  rwa [heq] at h1

/-- A run climbing from `prev` cannot be longer than a maximal climb. -/
theorem le_temp_of_climb {S : List Int} {prev : Int} {temp k : Nat}
    (hclimb : ∀ j : Nat, j < k → prev + (j : Int) ∈ S)
    (hmax : prev + (temp : Int) ∉ S) : k ≤ temp := by
  by_contra h
  push_neg at h
  exact hmax (hclimb temp h)

/-- The scan result dominates both accumulators. -/
theorem longestAux_ge :
    ∀ (l : List Int) (prev : Int) (temp longest : Nat),
      (temp = 1 ∨ temp ≤ longest) →
      longest ≤ longestAux prev l temp longest ∧ temp ≤ longestAux prev l temp longest := by
  intro l
  induction l with
  | nil =>
    intro prev temp longest _
    unfold longestAux
    omega
  | cons d ds ih =>
    intro prev temp longest hv
    unfold longestAux
    split
    · have := ih d (temp + 1) (max longest (temp + 1)) (Or.inr (by omega))
      omega
    · have := ih d 1 longest (Or.inl rfl)
      omega

/-- Soundness: the scan result is witnessed by an actual run of
consecutive days inside `S`. -/
theorem longestAux_sound :
    ∀ (l : List Int) (prev : Int) (temp longest : Nat) (S : List Int),
      prev ∈ S → (∀ x ∈ l, x ∈ S) →
      (∀ j : Nat, j < temp → prev + (j : Int) ∈ S) →
      (∃ dtop : Int, ∀ j : Nat, j < longest → dtop - (j : Int) ∈ S) →
      ∃ dtop : Int, ∀ j : Nat, j < longestAux prev l temp longest → dtop - (j : Int) ∈ S := by
  intro l
  induction l with
  | nil =>
    intro prev temp longest S _ _ htemp hlong
    obtain ⟨dl, hdl⟩ := hlong
    unfold longestAux
    rcases Nat.le_total temp longest with h | h
    · rw [Nat.max_eq_left h]
      exact ⟨dl, hdl⟩
    · rw [Nat.max_eq_right h]
      refine ⟨prev + (temp : Int) - 1, fun j hj => ?_⟩
      have h1 := htemp (temp - 1 - j) (by omega)
      have heq : prev + ((temp - 1 - j : Nat) : Int)
          = prev + (temp : Int) - 1 - (j : Int) := by omega
      rwa [heq] at h1
  | cons d ds ih =>
    intro prev temp longest S hprev hl htemp hlong
    have hdS : d ∈ S := hl d (List.mem_cons_self _ _)
    have hlS : ∀ x ∈ ds, x ∈ S := fun x hx => hl x (List.mem_cons_of_mem _ hx)
    unfold longestAux
    split
    · rename_i h1
      have htemp' : ∀ j : Nat, j < temp + 1 → d + (j : Int) ∈ S := by
        intro j hj
        match j with
        | 0 => simpa using hdS
        | j' + 1 =>
          have h2 := htemp j' (by omega)
          have heq : prev + ((j' : Nat) : Int) = d + (((j' + 1 : Nat)) : Int) := by
            push_cast; omega
          rwa [heq] at h2
      refine ih d (temp + 1) (max longest (temp + 1)) S hdS hlS htemp' ?_
      rcases Nat.le_total (temp + 1) longest with h | h
      · rw [Nat.max_eq_left h]
        exact hlong
      · rw [Nat.max_eq_right h]
        refine ⟨d + ((temp + 1 : Nat) : Int) - 1, fun j hj => ?_⟩
        have h2 := htemp' (temp - j) (by omega)
        have heq : d + ((temp - j : Nat) : Int)
            = d + ((temp + 1 : Nat) : Int) - 1 - (j : Int) := by omega
        rwa [heq] at h2
    · refine ih d 1 longest S hdS hlS ?_ hlong
      intro j hj
      match j with
      | 0 => simpa using hdS

/-- Bounds extracted from a sorted split `S = pre ++ prev :: l`. -/
theorem sorted_split_bounds {pre l : List Int} {prev : Int}
    (hs : List.Sorted (· > ·) (pre ++ prev :: l)) :
    (∀ x ∈ pre, prev < x) ∧ (∀ x ∈ l, x < prev) := by
  rw [List.Sorted, List.pairwise_append] at hs
  obtain ⟨_, h2, h3⟩ := hs
  refine ⟨fun x hx => h3 x hx prev (List.mem_cons_self _ _), ?_⟩
  exact fun x hx => List.rel_of_sorted_cons h2 x hx

/-- Completeness of the scan: every run of consecutive days in `S` is
bounded by the scan result.  The invariants say: `temp` is a maximal
climb from `prev`, runs lying strictly above `prev` are bounded by
`max longest 1`, and `temp` exceeds `longest` only just after an
extension. -/
theorem longestAux_complete :
    ∀ (l : List Int) (prev : Int) (temp longest : Nat) (pre S : List Int),
      S = pre ++ prev :: l →
      List.Sorted (· > ·) S →
      1 ≤ temp →
      (temp = 1 ∨ temp ≤ longest) →
      (∀ j : Nat, j < temp → prev + (j : Int) ∈ S) →
      prev + (temp : Int) ∉ S →
      (∀ (k : Nat) (dtop : Int), 1 ≤ k →
        (∀ j : Nat, j < k → dtop - (j : Int) ∈ S) →
        prev < dtop - (k : Int) + 1 → k ≤ max longest 1) →
      ∀ (k : Nat) (dtop : Int), (∀ j : Nat, j < k → dtop - (j : Int) ∈ S) →
        k ≤ longestAux prev l temp longest := by
  intro l
  induction l with
  | nil =>
    intro prev temp longest pre S hsplit hs htemp1 hv htemp hmax hlong k dtop hrun
    unfold longestAux
    rcases Nat.eq_zero_or_pos k with hk | hk
    · omega
    · have hbot := hrun (k - 1) (by omega)
      have heqb : dtop - ((k - 1 : Nat) : Int) = dtop - (k : Int) + 1 := by omega
      rw [heqb] at hbot
      rw [hsplit] at hbot
      rcases List.mem_append.mp hbot with hb | hb
      · have hgt := (sorted_split_bounds (hsplit ▸ hs)).1 _ hb
        have := hlong k dtop hk hrun hgt
        omega
      · have hbp : dtop - (k : Int) + 1 = prev := by
          rcases List.mem_cons.mp hb with h | h
          · exact h
          · simp at h
        have hclimb := climb_of_run hrun hbp.symm
        have := le_temp_of_climb hclimb hmax
        omega
  | cons d0 ds ih =>
    intro prev temp longest pre S hsplit hs htemp1 hv htemp hmax hlong k dtop hrun
    have hsplit' : S = (pre ++ [prev]) ++ d0 :: ds := by
      rw [hsplit, List.append_assoc]; rfl
    have hbounds := sorted_split_bounds (hsplit ▸ hs)
    have hpd : d0 < prev := hbounds.2 d0 (List.mem_cons_self _ _)
    have hd0S : d0 ∈ S := by
      rw [hsplit]
      exact List.mem_append_right _ (List.mem_cons_of_mem _ (List.mem_cons_self _ _))
    -- no element of S lies strictly between d0 and prev
    have hnobetween : ∀ x ∈ S, x ≤ d0 ∨ prev ≤ x := by
      intro x hx
      rw [hsplit] at hx
      rcases List.mem_append.mp hx with h | h
      · right
        exact le_of_lt (hbounds.1 _ h)
      · rcases List.mem_cons.mp h with h1 | h1
        · right; omega
        · left
          have := hbounds.2 x h1
          rcases List.mem_cons.mp h1 with h2 | h2
          · omega
          · have hds := sorted_split_bounds (hsplit' ▸ hs)
            exact le_of_lt (hds.2 x h2)
    unfold longestAux
    split
    · rename_i h1
      have htemp' : ∀ j : Nat, j < temp + 1 → d0 + (j : Int) ∈ S := by
        intro j hj
        match j with
        | 0 => simpa using hd0S
        | j' + 1 =>
          have h2 := htemp j' (by omega)
          have heq : prev + ((j' : Nat) : Int) = d0 + (((j' + 1 : Nat)) : Int) := by
            push_cast; omega
          rwa [heq] at h2
      have hmax' : d0 + ((temp + 1 : Nat) : Int) ∉ S := by
        intro hc
        apply hmax
        have heq : d0 + ((temp + 1 : Nat) : Int) = prev + (temp : Int) := by
          push_cast; omega
        rwa [heq] at hc
      refine ih d0 (temp + 1) (max longest (temp + 1)) (pre ++ [prev]) S hsplit' hs
        (by omega) (Or.inr (by omega)) htemp' hmax' ?_ k dtop hrun
      intro k' dtop' hk' hrun' hgt
      have hbot := hrun' (k' - 1) (by omega)
      have heqb : dtop' - ((k' - 1 : Nat) : Int) = dtop' - (k' : Int) + 1 := by omega
      rw [heqb] at hbot
      rcases hnobetween _ hbot with hle | hge
      · omega
      · rcases eq_or_lt_of_le hge with heq | hlt
        · have hclimb := climb_of_run hrun' (by omega :
            prev = dtop' - (k' : Int) + 1)
          have := le_temp_of_climb hclimb hmax
          omega
        · have := hlong k' dtop' hk' hrun' hlt
          omega
    · rename_i h1
      have hd1 : d0 + (1 : Int) ∉ S := by
        intro hc
        rcases hnobetween _ hc with hle | hge
        · omega
        · omega
      have hmax1 : d0 + ((1 : Nat) : Int) ∉ S := by
        simpa using hd1
      refine ih d0 1 longest (pre ++ [prev]) S hsplit' hs le_rfl (Or.inl rfl)
        (by intro j hj; match j with | 0 => simpa using hd0S) hmax1 ?_ k dtop hrun
      intro k' dtop' hk' hrun' hgt
      have hbot := hrun' (k' - 1) (by omega)
      have heqb : dtop' - ((k' - 1 : Nat) : Int) = dtop' - (k' : Int) + 1 := by omega
      rw [heqb] at hbot
      rcases hnobetween _ hbot with hle | hge
      · omega
      · rcases eq_or_lt_of_le hge with heq | hlt
        · have hclimb := climb_of_run hrun' (by omega :
            prev = dtop' - (k' : Int) + 1)
          have hkt := le_temp_of_climb hclimb hmax
          omega
        · have := hlong k' dtop' hk' hrun' hlt
          omega

/-- Soundness at the top level: the longest streak is realised by a
run of consecutive days in the sorted list. -/
theorem longestRun_sound {S : List Int} (hs : List.Sorted (· > ·) S) :
    ∃ dtop : Int, ∀ j : Nat, j < longestRun S → dtop - (j : Int) ∈ S := by
  match S with
  | [] => exact ⟨0, by simp [longestRun]⟩
  | p :: l =>
    unfold longestRun
    refine longestAux_sound l p 1 0 (p :: l) (List.mem_cons_self _ _)
      (fun x hx => List.mem_cons_of_mem _ hx) ?_ ⟨0, by omega⟩
    intro j hj
    match j with
    | 0 => simp

/-- Completeness at the top level: no run of consecutive days in the
sorted list is longer than the longest streak. -/
theorem longestRun_complete {S : List Int} (hs : List.Sorted (· > ·) S) :
    ∀ (k : Nat) (dtop : Int), (∀ j : Nat, j < k → dtop - (j : Int) ∈ S) →
      k ≤ longestRun S := by
  match S with
  | [] =>
    intro k dtop hrun
    rcases Nat.eq_zero_or_pos k with hk | hk
    · omega
    · have := hrun 0 hk
      simp at this
  | p :: l =>
    intro k dtop hrun
    have hmaxel : ∀ x ∈ p :: l, x ≤ p := by
      intro x hx
      rcases List.mem_cons.mp hx with h | h
      · omega
      · exact le_of_lt (List.rel_of_sorted_cons hs x h)
    unfold longestRun
    refine longestAux_complete l p 1 0 [] (p :: l) rfl hs le_rfl (Or.inl rfl)
      (by intro j hj; match j with | 0 => simp)
      ?_ ?_ k dtop hrun
    · intro hc
      have := hmaxel _ hc
      omega
    · intro k' dtop' hk' hrun' hgt
      have hbot := hrun' (k' - 1) (by omega)
      have heqb : dtop' - ((k' - 1 : Nat) : Int) = dtop' - (k' : Int) + 1 := by omega
      rw [heqb] at hbot
      have := hmaxel _ hbot
      omega

/-- On sorted input the Profile.tsx run-extension test
(`Math.abs(diff) <= 1`) agrees with the `=== 1` test: adjacent distinct
descending days differ by at least one. -/
theorem longestAuxAbs_eq :
    ∀ (l : List Int) (prev : Int) (temp longest : Nat),
      List.Sorted (· > ·) (prev :: l) →
      longestAuxAbs prev l temp longest = longestAux prev l temp longest := by
  intro l
  induction l with
  | nil => intro prev temp longest _; rfl
  | cons d ds ih =>
    intro prev temp longest hs
    have hd := List.sorted_cons.mp hs
    have hpd : d < prev := hd.1 d (List.mem_cons_self _ _)
    have hiff : (prev - d).natAbs ≤ 1 ↔ prev - d = 1 := by omega
    unfold longestAuxAbs longestAux
    by_cases h : prev - d = 1
    · rw [if_pos (hiff.mpr h), if_pos h, ih d _ _ hd.2]
    · rw [if_neg (fun hc => h (hiff.mp hc)), if_neg h, ih d _ _ hd.2]

/-- Profile.tsx longest streak equals the reference scan on sorted input. -/
theorem profileLongestRun_eq {S : List Int} (hs : List.Sorted (· > ·) S) :
    profileLongestRun S = longestRun S := by
  match S with
  | [] => rfl
  | p :: l =>
    unfold profileLongestRun longestRun
    exact longestAuxAbs_eq l p 1 0 hs

/-- `streakScan` from index 0: membership of the matched prefix. -/
theorem streakScan_zero_mem (today : Int) (L : List Int) (j : Nat)
    (hj : j < streakScan today L 0) : today - (j : Int) ∈ L := by
  have h := streakScan_mem today L 0 j hj
  simpa using h

/-- `streakScan` from index 0: the day just past the matched prefix is
absent, given a sorted list bounded by today. -/
theorem streakScan_zero_gap (today : Int) (L : List Int)
    (hs : List.Sorted (· > ·) L) (hb : ∀ d ∈ L, d ≤ today) :
    today - (streakScan today L 0 : Int) ∉ L := by
  have h := streakScan_gap today L 0 hs (by simpa using hb)
  simpa using h

/-- The backward walk takes no step when its starting day is inactive. -/
theorem walkBackAux_zero {S : List Int} {d : Int} {fuel : Nat} (h : d ∉ S) :
    walkBackAux S d fuel = 0 := by
  cases fuel with
  | zero => rfl
  | succ n =>
    unfold walkBackAux
    rw [if_neg h]

/-- The Dashboard streak is 0 whenever today is not an active day: the
walk starts at today, so the `yesterday` half of the guard is inert. -/
theorem dashboardStreak_today_inactive {today : Int} {qs : List Question}
    (h : today ∉ (solvedDays qs).dedup) : dashboardStreak today qs = 0 := by
  unfold dashboardStreak
  by_cases hg : today ∈ (solvedDays qs).dedup ∨ today - 1 ∈ (solvedDays qs).dedup
  · rw [if_pos hg]
    exact walkBackAux_zero h
  · rw [if_neg hg]

/-! ## Claim C1 -/

/-- Claim C1 (amended): the current streak is the backward walk from
today (for `j` below the streak, `today - j` is an active day, and the
day just past the streak is not), unconditionally for the windowed
Profile implementation (part_001), and for the Profile.tsx variant
provided no unique solved day lies after today.  In particular, when
today is not active the streak is 0 (take `j = 0`). -/
theorem currentStreak_walks_back (today : Int) (qs : List Question) :
    ((∀ j : Nat, j < currentStreak today qs →
        today - (j : Int) ∈ activeDays today qs) ∧
      today - (currentStreak today qs : Int) ∉ activeDays today qs) ∧
    ((∀ d ∈ profileUniqueDates qs, d ≤ today) →
      (∀ j : Nat, j < profileCurrentStreak today qs →
        today - (j : Int) ∈ profileUniqueDates qs) ∧
      today - (profileCurrentStreak today qs : Int) ∉ profileUniqueDates qs) := by
  refine ⟨⟨fun j hj => streakScan_zero_mem _ _ _ hj, ?_⟩, fun hb => ⟨fun j hj =>
    streakScan_zero_mem _ _ _ hj, ?_⟩⟩
  · exact streakScan_zero_gap today _ (sorted_activeDays today qs)
      (fun d hd => activeDays_le_today hd)
  · exact streakScan_zero_gap today _ (sorted_profileUniqueDates qs) hb

/-- Claim C1, counterexample to the unconditional statement: with a
completion dated the day after today (day 11, today = 10) alongside one
dated today, Profile.tsx computes `currentStreak = 0`, although today
is a unique active day, so the backward walk from today takes one step
(`walkBackAux` evaluates the walk described by the claim). -/
theorem currentStreak_walks_back_cex :
    profileCurrentStreak 10 exFuture = 0 ∧
    (10 : Int) ∈ profileUniqueDates exFuture ∧
    walkBackAux (profileUniqueDates exFuture) 10 2 = 1 := by decide

/-- Claim C1, witness: the amended theorem applied at today = 10 with
three consecutive active days, all hypotheses discharged concretely. -/
theorem currentStreak_walks_back_w :
    ((∀ d ∈ profileUniqueDates exThree, d ≤ (10 : Int)) ∧
      (10 : Int) - (currentStreak 10 exThree : Int) ∉ activeDays 10 exThree ∧
      (10 : Int) - (profileCurrentStreak 10 exThree : Int) ∉ profileUniqueDates exThree) :=
  ⟨by decide,
    (currentStreak_walks_back 10 exThree).1.2,
    ((currentStreak_walks_back 10 exThree).2 (by decide)).2⟩

/-! ## Claim C2 -/

/-- Claim C2: both longest-streak scans compute exactly the maximum run
length over the descending unique active days: the result is realised
by a run of consecutive days (soundness) and bounds every run of
consecutive days (completeness); a single active day yields 1. -/
theorem longestStreak_max_run (today : Int) (qs : List Question) :
    ((∃ dtop : Int, ∀ j : Nat, j < longestStreak today qs →
        dtop - (j : Int) ∈ activeDays today qs) ∧
      (∀ (k : Nat) (dtop : Int),
        (∀ j : Nat, j < k → dtop - (j : Int) ∈ activeDays today qs) →
        k ≤ longestStreak today qs)) ∧
    ((∃ dtop : Int, ∀ j : Nat, j < profileLongestStreak today qs →
        dtop - (j : Int) ∈ profileUniqueDates qs) ∧
      (∀ (k : Nat) (dtop : Int),
        (∀ j : Nat, j < k → dtop - (j : Int) ∈ profileUniqueDates qs) →
        k ≤ profileLongestStreak today qs)) ∧
    (∀ d : Int, activeDays today qs = [d] → longestStreak today qs = 1) := by
  have hs1 := sorted_activeDays today qs
  have hs2 := sorted_profileUniqueDates qs
  refine ⟨⟨longestRun_sound hs1, longestRun_complete hs1⟩, ?_, ?_⟩
  · rw [show profileLongestStreak today qs = longestRun (profileUniqueDates qs) from
      profileLongestRun_eq hs2]
    exact ⟨longestRun_sound hs2, longestRun_complete hs2⟩
  · intro d hd
    unfold longestStreak
    rw [hd]
    rfl

/-- Claim C2, witness: completeness applied at the concrete input with
active days 10, 9, 8, the run hypothesis discharged by evaluation. -/
theorem longestStreak_max_run_w :
    (∀ j : Nat, j < 3 → (10 : Int) - (j : Int) ∈ activeDays 10 exThree) ∧
    3 ≤ longestStreak 10 exThree :=
  ⟨by decide, (longestStreak_max_run 10 exThree).1.2 3 10 (by decide)⟩

/-! ## Claim C3 -/

/-- Claim C3, counterexample to the stated mechanism: the Dashboard
does not count "yesterday active" as streak-continuing.  With only
yesterday (day 9) active and today = 10, the guard fires but the walk
starts at today, which is inactive, so the Dashboard streak is 0. -/
theorem dashboard_diverges_cex :
    ((10 : Int) - 1) ∈ (solvedDays exYesterday).dedup ∧
    dashboardStreak 10 exYesterday = 0 := by decide

/-- Claim C3 (amended): the two streak implementations do diverge — on
a future-dated completion plus one today, the Dashboard walk yields 1
while Profile.tsx yields 0 — but not through the "yesterday or today"
guard, which is inert: whenever today is inactive the Dashboard streak
is 0, exactly like the Profile computation. -/
theorem dashboard_diverges (today : Int) (qs : List Question) :
    dashboardStreak 10 exFuture = 1 ∧
    profileCurrentStreak 10 exFuture = 0 ∧
    (today ∉ (solvedDays qs).dedup → dashboardStreak today qs = 0) := by
  refine ⟨by decide, by decide, fun h => dashboardStreak_today_inactive h⟩

/-- Claim C3, witness: the inertness part applied at a concrete
inactive today (day 5) with yesterday-style data. -/
theorem dashboard_diverges_w :
    ((5 : Int) ∉ (solvedDays exYesterday).dedup) ∧
    dashboardStreak 5 exYesterday = 0 :=
  ⟨by decide, (dashboard_diverges 5 exYesterday).2.2 (by decide)⟩

/-! ## Claim C4 -/

/-- Claim C4: in both Profile implementations the longest streak
dominates the current streak: the current streak's matched prefix is
itself a run of consecutive active days, and the longest-streak scan
bounds every such run. -/
theorem longest_ge_current (today : Int) (qs : List Question) :
    currentStreak today qs ≤ longestStreak today qs ∧
    profileCurrentStreak today qs ≤ profileLongestStreak today qs := by
  constructor
  · exact longestRun_complete (sorted_activeDays today qs) _ today
      (fun j hj => streakScan_zero_mem _ _ _ hj)
  · rw [show profileLongestStreak today qs = longestRun (profileUniqueDates qs) from
      profileLongestRun_eq (sorted_profileUniqueDates qs)]
    exact longestRun_complete (sorted_profileUniqueDates qs) _ today
      (fun j hj => streakScan_zero_mem _ _ _ hj)

/-! ## Claim C5 -/

/-- A single record contributes exactly one occurrence of its activity
day to the per-day counts when that day is in the window, and nothing
otherwise. -/
theorem activityCount_middle (today : Int) (l1 l2 : List Question) (q : Question) (d : Int) :
    activityCount today (l1 ++ q :: l2) d =
      activityCount today (l1 ++ l2) d +
        (if activityDay q = some d ∧ inWindow today d = true then 1 else 0) := by
  unfold activityCount activityDays
  rw [List.filterMap_append, List.filterMap_append, List.filter_append, List.filter_append,
      List.count_append, List.count_append]
  rcases hq : activityDay q with _ | x
  · rw [List.filterMap_cons_none hq]
    simp [hq]
  · rw [List.filterMap_cons_some hq]
    by_cases hw : inWindow today x = true
    · rw [List.filter_cons_of_pos hw]
      by_cases hxd : x = d
      · subst hxd
        rw [List.count_cons, if_pos (by simp), if_pos ⟨rfl, hw⟩]
        omega
      · rw [List.count_cons, if_neg (by simpa using hxd),
          if_neg (by rintro ⟨hc, h2⟩; exact hxd (Option.some.inj hc))]
        omega
    · rw [List.filter_cons_of_neg hw]
      by_cases hxd : x = d
      · subst hxd
        rw [if_neg (by rintro ⟨hc, h2⟩; exact hw h2)]
        omega
      · rw [if_neg (by rintro ⟨hc, h2⟩; exact hxd (Option.some.inj hc))]
        omega

/-- Claim C5: each record contributes at most one activity date — the
parsed `last_solved_at` when that field is present; otherwise, for a
Completed record, the parsed `updated_at`; otherwise none — and that
date adds exactly one in-window occurrence to the activity counts. -/
theorem activityDay_contribution (today : Int) (l1 l2 : List Question) (q : Question) (d : Int) :
    (∀ r : RawTs, q.last_solved_at = some r → activityDay q = r.parse) ∧
    (q.last_solved_at = none → q.status = Status.completed →
      activityDay q = q.updated_at.bind RawTs.parse) ∧
    (q.last_solved_at = none → q.status ≠ Status.completed → activityDay q = none) ∧
    activityCount today (l1 ++ q :: l2) d =
      activityCount today (l1 ++ l2) d +
        (if activityDay q = some d ∧ inWindow today d = true then 1 else 0) := by
  refine ⟨?_, ?_, ?_, activityCount_middle today l1 l2 q d⟩
  · intro r h
    unfold activityDay
    rw [h]
  · intro h hc
    unfold activityDay
    rw [h, hc]
    cases q.updated_at <;> rfl
  · intro h hc
    unfold activityDay
    rw [h]
    cases hs : q.status
    · rfl
    · rfl
    · exact absurd hs hc

/-- Claim C5, witness: the `last_solved_at` branch applied to the
concrete record completed on day 10, hypothesis discharged. -/
theorem activityDay_contribution_w :
    (exTodayRec.last_solved_at = some (RawTs.valid 10)) ∧
    activityDay exTodayRec = (RawTs.valid 10).parse :=
  ⟨by decide, (activityDay_contribution 10 [] [] exTodayRec 10).1 (RawTs.valid 10) (by decide)⟩

/-! ## Claim C7 -/

/-- Claim C7: the completion rate is 0 when there are no records and
otherwise `round(100 * completed / total)`, the rounding taken over the
exact rationals (`Math.round` and Mathlib `round` both round half
toward positive infinity). -/
theorem completionRate_round (qs : List Question) :
    completionRate qs =
      if totalCount qs = 0 then 0
      else round ((100 * (completedCount qs : ℚ)) / (totalCount qs : ℚ)) := by
  unfold completionRate
  rcases Nat.eq_zero_or_pos (totalCount qs) with h | h
  · simp [h]
  · rw [if_pos h, if_neg (by omega)]
    congr 1
    ring

/-! ## Claim C8 -/

/-- A record with no parseable date field contributes no activity day:
a malformed `last_solved_at` takes the first branch and yields an
invalid date that fails the window check, and the `updated_at`
fallback is equally unparseable. -/
theorem activityDay_none_of_bad {q : Question}
    (h1 : q.last_solved_at.bind RawTs.parse = none)
    (h2 : q.updated_at.bind RawTs.parse = none) : activityDay q = none := by
  unfold activityDay
  rcases hl : q.last_solved_at with _ | r
  · cases hs : q.status
    · rfl
    · rfl
    · rcases hu : q.updated_at with _ | r2
      · rfl
      · rw [hu] at h2
        simpa using h2
  · rw [hl] at h1
    simpa using h1

/-- Dropping a record that contributes no activity day leaves the
in-window day list unchanged. -/
theorem activityDays_middle_none (today : Int) (l1 l2 : List Question) {q : Question}
    (h : activityDay q = none) :
    activityDays today (l1 ++ q :: l2) = activityDays today (l1 ++ l2) := by
  unfold activityDays
  rw [List.filterMap_append, List.filterMap_append, List.filterMap_cons_none h]

/-- Claim C8: a record whose date fields are malformed or missing is
silently excluded — it contributes no activity day, and its presence
changes none of the activity counts, active days, streaks, or rendered
heatmap derived from the remaining records (the computation is total,
so it cannot fail). -/
theorem malformed_records_skipped (today : Int) (l1 l2 : List Question) (q : Question)
    (h1 : q.last_solved_at.bind RawTs.parse = none)
    (h2 : q.updated_at.bind RawTs.parse = none) :
    activityDay q = none ∧
    (∀ d : Int, activityCount today (l1 ++ q :: l2) d = activityCount today (l1 ++ l2) d) ∧
    activeDays today (l1 ++ q :: l2) = activeDays today (l1 ++ l2) ∧
    currentStreak today (l1 ++ q :: l2) = currentStreak today (l1 ++ l2) ∧
    longestStreak today (l1 ++ q :: l2) = longestStreak today (l1 ++ l2) ∧
    renderedCounts today (l1 ++ q :: l2) = renderedCounts today (l1 ++ l2) := by
  have h0 := activityDay_none_of_bad h1 h2
  have hD := activityDays_middle_none today l1 l2 h0
  exact ⟨h0, fun d => by rw [activityCount, activityCount, hD],
    by rw [activeDays, activeDays, hD],
    by rw [currentStreak, currentStreak, activeDays, activeDays, hD],
    by rw [longestStreak, longestStreak, activeDays, activeDays, hD],
    by
      unfold renderedCounts activityCount
      rw [hD]⟩

/-- Claim C8, witness: inserting the malformed record in front of the
three-day example changes no streak. -/
theorem malformed_records_skipped_w :
    (exBad.last_solved_at.bind RawTs.parse = none ∧
      exBad.updated_at.bind RawTs.parse = none) ∧
    currentStreak 10 ([] ++ exBad :: exThree) = currentStreak 10 ([] ++ exThree) :=
  ⟨⟨by decide, by decide⟩,
    (malformed_records_skipped 10 [] exThree exBad (by decide) (by decide)).2.2.2.1⟩

/-! ## Claim C10 -/

/-- The in-window day list depends only on the records whose activity
day is in the window. -/
theorem activityDays_filter_window (today : Int) :
    ∀ qs : List Question,
      activityDays today qs = activityDays today (qs.filter (inWindowRec today)) := by
  intro qs
  induction qs with
  | nil => rfl
  | cons q rest ih =>
    rcases hq : activityDay q with _ | x
    · have hr : inWindowRec today q = false := by simp [inWindowRec, hq]
      rw [List.filter_cons, if_neg (by simp [hr])]
      unfold activityDays
      rw [List.filterMap_cons_none hq]
      exact ih
    · have hr : inWindowRec today q = inWindow today x := by simp [inWindowRec, hq]
      by_cases hw : inWindow today x = true
      · rw [List.filter_cons, if_pos (by rw [hr]; exact hw)]
        unfold activityDays
        rw [List.filterMap_cons_some hq, List.filterMap_cons_some hq,
            List.filter_cons_of_pos hw, List.filter_cons_of_pos hw]
        unfold activityDays at ih
        rw [ih]
      · rw [List.filter_cons, if_neg (by rw [hr]; exact hw)]
        unfold activityDays
        rw [List.filterMap_cons_some hq, List.filter_cons_of_neg hw]
        exact ih

/-- Claim C10: the activity map and both streaks computed by part_001
depend only on the records whose derived activity day lies between the
week-aligned window start and today: two inputs agreeing on those
records (and differing arbitrarily elsewhere, including in records
dated before the window or after today) produce identical activity
counts, active days, streaks, and rendered heatmap. -/
theorem stats_window_only (today : Int) (qs1 qs2 : List Question)
    (h : qs1.filter (inWindowRec today) = qs2.filter (inWindowRec today)) :
    (∀ d : Int, activityCount today qs1 d = activityCount today qs2 d) ∧
    activeDays today qs1 = activeDays today qs2 ∧
    currentStreak today qs1 = currentStreak today qs2 ∧
    longestStreak today qs1 = longestStreak today qs2 ∧
    renderedCounts today qs1 = renderedCounts today qs2 := by
  have hD : activityDays today qs1 = activityDays today qs2 := by
    rw [activityDays_filter_window today qs1, activityDays_filter_window today qs2, h]
  exact ⟨fun d => by rw [activityCount, activityCount, hD],
    by rw [activeDays, activeDays, hD],
    by rw [currentStreak, currentStreak, activeDays, activeDays, hD],
    by rw [longestStreak, longestStreak, activeDays, activeDays, hD],
    by
      unfold renderedCounts activityCount
      rw [hD]⟩

/-- Claim C10, witness: a record dated after today (day 100, today 10)
is invisible — the input containing only it yields the same streak as
the empty input. -/
theorem stats_window_only_w :
    ([exOut].filter (inWindowRec 10) = List.filter (inWindowRec 10) []) ∧
    currentStreak 10 [exOut] = currentStreak 10 [] :=
  ⟨by decide, (stats_window_only 10 [exOut] [] (by decide)).2.2.1⟩

/-! ## Claim C6 -/

/-- Closed form of the Sunday-alignment loop: it subtracts exactly the
weekday offset of `today - 364`. -/
theorem startOfRange_eq (today : Int) :
    startOfRange today = today - 364 - ((today - 364 + 4) % 7) := by
  unfold startOfRange
  unfold alignSundayAux
  split
  · omega
  · unfold alignSundayAux
    split
    · omega
    · unfold alignSundayAux
      split
      · omega
      · unfold alignSundayAux
        split
        · omega
        · unfold alignSundayAux
          split
          · omega
          · unfold alignSundayAux
            split
            · omega
            · unfold alignSundayAux
              split
              · omega
              · omega

/-- Grid membership characterised by offset from the aligned start. -/
theorem mem_yearDays {today d : Int} :
    d ∈ yearDays today ↔
      ∃ i : Nat, i < 53 * 7 ∧ d = startOfRange today + (i : Int) := by
  unfold yearDays
  constructor
  · intro h
    obtain ⟨i, hi, hEq⟩ := List.mem_map.mp h
    exact ⟨i, List.mem_range.mp hi, hEq.symm⟩
  · rintro ⟨i, hi, rfl⟩
    exact List.mem_map.mpr ⟨i, List.mem_range.mpr hi, rfl⟩

/-- Claim C6 (amended): the emitted grid always has exactly 53 × 7 =
371 day cells regardless of the records; it starts on a Sunday at or
before `today - 364`, covers every day of the trailing 365-day window
ending today, and extends at most to `start + 370` (up to 6 days past
today); each cell carries the day's activity count, 0 when inactive.
The sparse `activity` object itself holds only the active days. -/
theorem yearGrid_shape (today : Int) (qs : List Question) :
    (yearDays today).length = 53 * 7 ∧
    (renderedCounts today qs).length = 53 * 7 ∧
    (startOfRange today + 4) % 7 = 0 ∧
    startOfRange today ≤ today - 364 ∧
    (∀ d : Int, today - 364 ≤ d → d ≤ today → d ∈ yearDays today) ∧
    (∀ d ∈ yearDays today, startOfRange today ≤ d ∧ d ≤ startOfRange today + 370) := by
  have he := startOfRange_eq today
  have hm0 : 0 ≤ (today - 364 + 4) % 7 := Int.emod_nonneg _ (by norm_num)
  have hm7 : (today - 364 + 4) % 7 < 7 := Int.emod_lt_of_pos _ (by norm_num)
  have hlen : (yearDays today).length = 53 * 7 := by
    unfold yearDays
    rw [List.length_map, List.length_range]
  refine ⟨hlen, ?_, ?_, by omega, ?_, ?_⟩
  · unfold renderedCounts
    rw [List.length_map]
    exact hlen
  · rw [he]
    omega
  · intro d h1 h2
    exact mem_yearDays.mpr ⟨(d - startOfRange today).toNat, by omega, by omega⟩
  · intro d hd
    obtain ⟨i, hi, rfl⟩ := mem_yearDays.mp hd
    omega

set_option maxRecDepth 4000 in
/-- Claim C6, counterexample to the stated shape: at today = 0 with no
records, the emitted grid has 371 entries, not 365, and contains day 2,
which lies after today, so the covered window does not end at today;
the sparse activity object is empty rather than windowSize-sized. -/
theorem yearGrid_shape_cex :
    (yearDays 0).length = 371 ∧ ¬(yearDays 0).length = 365 ∧
    ((2 : Int) ∈ yearDays 0) ∧ activeDays 0 [] = [] := by decide

/-- Claim C6, witness: window coverage applied at today = 0 to the
concrete in-window day −100. -/
theorem yearGrid_shape_w :
    ((0 : Int) - 364 ≤ -100 ∧ (-100 : Int) ≤ 0) ∧ (-100 : Int) ∈ yearDays 0 :=
  ⟨⟨by decide, by decide⟩, (yearGrid_shape 0 []).2.2.2.2.1 (-100) (by decide) (by decide)⟩

/-! ## Claim C9 -/

/-- Claim C9: the question-form payload (`{ ...formData, user_id,
solution_code }`) never includes `last_solved_at`, so every update
leaves the stored value unchanged and every insert leaves the column
at its null default.  Hence non-completing submissions leave
`last_solved_at` unchanged, and it is set only on completion —
vacuously, since the presentation layer never writes it at all. -/
theorem last_solved_at_not_written (f : FormData) (uid : String) (now : Int)
    (row : QuestionRow) :
    (applyUpdate f uid now row).last_solved_at = row.last_solved_at ∧
    (insertRow f uid now).last_solved_at = none :=
  ⟨rfl, rfl⟩

end CodeTracker
